import Mathlib

/-!
Verification development for the job-description extraction engine and
form-merge logic of the tiny-template-creator repository (the `CreateJob`
page: `analyzeJobDescription`, the auto-fill merge in `handleAnalyzeJD`,
the per-field edit handlers, and the validation chain in `handleSubmit`).

Strings are modelled as `List Char` (the inputs of interest are ASCII).
The JavaScript regexes are embedded by a small list-of-successes
backtracking matcher that reproduces the leftmost-first semantics of the
JS engine for the constructs these patterns use (case-insensitive
literals, character classes, greedy/lazy repetition over character
classes, ordered alternation, optional groups, `$`, and multiline `^`).
-/

abbrev Str := List Char

def str (s : String) : Str := s.data

def toLowerS (s : Str) : Str := s.map Char.toLower

/-- JS `\s` restricted to the ASCII whitespace characters. -/
def isWsCh (c : Char) : Bool :=
  c == ' ' || c == '\t' || c == '\n' || c == '\r' || c == '\x0b' || c == '\x0c'

def isDigitCh (c : Char) : Bool := '0' ≤ c && c ≤ '9'

/-- Class `[a-z]` under the `i` flag: any ASCII letter. -/
def isAlphaCI (c : Char) : Bool := ('a' ≤ c && c ≤ 'z') || ('A' ≤ c && c ≤ 'Z')

/-- lowercase ASCII letter (used to reason about fixed lowercase needles). -/
def isLowerAlpha (c : Char) : Bool := 'a' ≤ c && c ≤ 'z'

def isWsColon (c : Char) : Bool := isWsCh c || c == ':'

def isTitleCls (c : Char) : Bool := isAlphaCI c || isWsCh c

def isLocCls (c : Char) : Bool := isAlphaCI c || isWsCh c || c == ','

def isCommaWs (c : Char) : Bool := c == ',' || isWsCh c

/-- JS `String.prototype.trim`. -/
def trimWs (s : Str) : Str :=
  ((s.dropWhile isWsCh).reverse.dropWhile isWsCh).reverse

/-- JS `replace(/\s+/g, ' ')`: collapse every whitespace run to one space.
The flag records whether the previous character was whitespace. -/
def collapseGo : Bool → Str → Str
  | _, [] => []
  | prevWs, c :: r =>
    if isWsCh c then
      if prevWs then collapseGo true r else ' ' :: collapseGo true r
    else c :: collapseGo false r

def collapseWs (s : Str) : Str := collapseGo false s

/-- JS `split(' ')`. -/
def splitOnSpace : Str → List Str
  | [] => [[]]
  | c :: r =>
    if c = ' ' then [] :: splitOnSpace r
    else
      match splitOnSpace r with
      | [] => [[c]]
      | w :: ws => (c :: w) :: ws

/-- JS `join(' ')`. -/
def joinSpace : List Str → Str
  | [] => []
  | [w] => w
  | w :: ws => w ++ ' ' :: joinSpace ws

/-- JS `join(', ')`. -/
def joinCommaSpace : List Str → Str
  | [] => []
  | [w] => w
  | w :: ws => w ++ ',' :: ' ' :: joinCommaSpace ws

/-- JS `w.charAt(0).toUpperCase() + w.slice(1)`. -/
def capFirst : Str → Str
  | [] => []
  | c :: r => c.toUpper :: r

/-- JS `w.charAt(0).toUpperCase() + w.slice(1).toLowerCase()`. -/
def capLowerRest : Str → Str
  | [] => []
  | c :: r => c.toUpper :: r.map Char.toLower

/-- JS `hay.includes(needle)` (case-sensitive substring containment). -/
def containsSub (hay needle : Str) : Bool :=
  if needle.isPrefixOf hay then true
  else
    match hay with
    | [] => false
    | _ :: t => containsSub t needle

def parseDigits (s : Str) : Nat :=
  s.foldl (fun a c => a * 10 + (c.toNat - '0'.toNat)) 0

def natToStr (n : Nat) : Str := Nat.toDigits 10 n

/-- JS `parseInt(s, 10)`: skip leading whitespace, optional sign, then a
leading digit run; `none` models `NaN`. -/
def digitsOpt (s : Str) : Option Nat :=
  let d := s.takeWhile isDigitCh
  if d.isEmpty then none else some (parseDigits d)

def parseIntJS (s : Str) : Option Int :=
  let t := s.dropWhile isWsCh
  match t with
  | '-' :: r => (digitsOpt r).map (fun n => -(n : Int))
  | '+' :: r => (digitsOpt r).map (fun n => (n : Int))
  | _ => (digitsOpt t).map (fun n => (n : Int))

/-! ## Backtracking matcher

A matcher maps an input suffix to the list of `(consumed, rest)` splits it
can produce, ordered by the JS engine's backtracking priority. -/

abbrev M := Str → List (Str × Str)

/-- Case-insensitive literal; `lit` is given in lowercase, the consumed
text keeps the original casing. -/
def mLit (lit : Str) : M := fun s =>
  if toLowerS (s.take lit.length) = lit then [(s.take lit.length, s.drop lit.length)] else []

def mEnd : M := fun s => if s.isEmpty then [([], s)] else []

def mSeq (p q : M) : M := fun s =>
  (p s).flatMap (fun a => (q a.2).map (fun b => (a.1 ++ b.1, b.2)))

def mAlt (ps : List M) : M := fun s => ps.flatMap (fun p => p s)

def mOpt (p : M) : M := fun s => p s ++ [([], s)]

/-- All splits of a character-class repetition with count in `[lo, top]`,
longest first (`top` is capped by `hi` when given). -/
def splitsDesc (f : Char → Bool) (s : Str) (lo : Nat) (hi : Option Nat) : List (Str × Str) :=
  let run := (s.takeWhile f).length
  let top := match hi with | some h => min h run | none => run
  (List.range (top + 1)).filterMap (fun i =>
    let k := top - i
    if lo ≤ k then some (s.take k, s.drop k) else none)

def mPlusG (f : Char → Bool) : M := fun s => splitsDesc f s 1 none

def mStarG (f : Char → Bool) : M := fun s => splitsDesc f s 0 none

def mRepG (f : Char → Bool) (lo hi : Nat) : M := fun s => splitsDesc f s lo (some hi)

/-- Lazy `+?` over a character class: shortest split first. -/
def mPlusL (f : Char → Bool) : M := fun s =>
  let run := (s.takeWhile f).length
  (List.range run).map (fun i => (s.take (i + 1), s.drop (i + 1)))

/-- Maximal number of `,\d{3}` iterations at the front of `s`. -/
def commaGroupCount : Str → Nat
  | ',' :: a :: b :: c :: r =>
    if isDigitCh a && isDigitCh b && isDigitCh c then commaGroupCount r + 1 else 0
  | _ => 0

/-- Greedy `(?:,\d{3})*`: each iteration is deterministic and consumes
exactly four characters, so the successes are the iteration prefixes,
longest first. -/
def mCommaGroups : M := fun s =>
  let n := commaGroupCount s
  (List.range (n + 1)).map (fun i => (s.take ((n - i) * 4), s.drop ((n - i) * 4)))

/-- Leftmost match: scan start positions left to right, and at the first
position where the pattern succeeds take its highest-priority result. -/
def searchPos {α : Type} (patAt : Str → List α) : Str → Option α
  | [] => (patAt []).head?
  | c :: t =>
    match patAt (c :: t) with
    | r :: _ => some r
    | [] => searchPos patAt t

/-- Leftmost match restricted to line starts (multiline `^`); the flag says
whether the current position starts a line. -/
def searchLineStart {α : Type} (patAt : Str → List α) : Bool → Str → Option α
  | atStart, [] => if atStart then (patAt []).head? else none
  | atStart, c :: t =>
    match (if atStart then patAt (c :: t) else []) with
    | r :: _ => some r
    | [] => searchLineStart patAt (c == '\n' || c == '\r') t

/-! ## Title extraction (`analyzeJobDescription`, title section) -/

def SKILL_KEYWORDS : List Str := [str "react", str "angular", str "vue", str "javascript",
  str "typescript", str "python", str "java", str "node.js", str "nodejs", str "express",
  str "mongodb", str "sql", str "mysql", str "postgresql", str "aws", str "docker",
  str "kubernetes", str "git", str "html", str "css", str "tailwind", str "figma",
  str "photoshop", str "excel", str "power bi", str "tableau", str "machine learning",
  str "ml", str "ai", str "data analysis", str "data science", str "communication",
  str "teamwork", str "problem solving", str "agile", str "scrum", str "api", str "rest",
  str "graphql", str "c++", str "c#", str ".net", str "flutter", str "react native",
  str "swift", str "kotlin", str "android", str "ios", str "linux", str "devops",
  str "ci/cd", str "testing", str "qa", str "selenium"]

def titleLeads1 : List Str := [str "looking for", str "hiring", str "seeking", str "need", str "require"]

def titleLeads2 : List Str := [str "position", str "role", str "job title", str "opening"]

def roleWords1 : List Str := [str "intern", str "developer", str "engineer", str "analyst",
  str "designer", str "manager", str "executive", str "associate"]

def roleWords2 : List Str := [str "intern", str "developer", str "engineer", str "analyst",
  str "designer", str "manager"]

def roleWords3 : List Str := [str "intern", str "developer", str "engineer", str "analyst",
  str "designer", str "manager", str "executive"]

/-- The capture group `([a-z\s]+(?:role|...|words))` shared by the three
title patterns; results are `(group text, rest)`. -/
def titleGroupM (roles : List Str) : Str → List (Str × Str) := fun s =>
  (mPlusG isTitleCls s).flatMap (fun a =>
    (mAlt (roles.map mLit) a.2).map (fun b => (a.1 ++ b.1, b.2)))

/-- Lead of title pattern 1:
`(?:looking for|hiring|seeking|need|require)\s+(?:a\s+)?`. -/
def titlePre1 : M :=
  mSeq (mAlt (titleLeads1.map mLit))
    (mSeq (mPlusG isWsCh) (mOpt (mSeq (mLit (str "a")) (mPlusG isWsCh))))

/-- Lead of title pattern 2: `(?:position|role|job title|opening)[\s:]+`. -/
def titlePre2 : M := mSeq (mAlt (titleLeads2.map mLit)) (mPlusG isWsColon)

def titlePat1At (s : Str) : List (Str × Str) :=
  (titlePre1 s).flatMap (fun a => titleGroupM roleWords1 a.2)

def titlePat2At (s : Str) : List (Str × Str) :=
  (titlePre2 s).flatMap (fun a => titleGroupM roleWords2 a.2)

/-- Source `jd.match(pattern)` group 1 for the three patterns, tried in declared
order; pattern 3 is anchored at line starts (`/im`). -/
def titleFirstMatch (jd : Str) : Option Str :=
  match searchPos titlePat1At jd with
  | some m => some m.1
  | none =>
    match searchPos titlePat2At jd with
    | some m => some m.1
    | none => (searchLineStart (titleGroupM roleWords3) true jd).map (fun m => m.1)

/-- Source `match[1].trim().replace(/\s+/g, ' ')` then
`.split(' ').map(w => w.charAt(0).toUpperCase() + w.slice(1)).join(' ')`. -/
def normTitle (g1 : Str) : Str :=
  joinSpace ((splitOnSpace (collapseWs (trimWs g1))).map capFirst)

/-- Keyword fallback chain for the title (evaluated on the lowercased
document), defaulting to "Intern". -/
def titleFallback (lowerJD : Str) : Str :=
  if containsSub lowerJD (str "software") && containsSub lowerJD (str "intern") then
    str "Software Development Intern"
  else if containsSub lowerJD (str "frontend") then str "Frontend Developer"
  else if containsSub lowerJD (str "backend") then str "Backend Developer"
  else if containsSub lowerJD (str "full stack") || containsSub lowerJD (str "fullstack") then
    str "Full Stack Developer"
  else if containsSub lowerJD (str "data analyst") then str "Data Analyst"
  else if containsSub lowerJD (str "data science") then str "Data Science Intern"
  else if containsSub lowerJD (str "marketing") then str "Marketing Intern"
  else if containsSub lowerJD (str "design") then str "Design Intern"
  else str "Intern"

def extractTitle (jd : Str) : Str :=
  match titleFirstMatch jd with
  | some g1 => normTitle g1
  | none => titleFallback (toLowerS jd)

/-! ## Skill extraction -/

def upperTokens : List Str := [str "ai", str "ml", str "qa", str "api", str "sql",
  str "aws", str "css", str "html"]

def formatSkill (skill : Str) : Str :=
  joinSpace ((splitOnSpace skill).map (fun w =>
    if upperTokens.contains (toLowerS w) then w.map Char.toUpper else capFirst w))

def skillStep (lowerJD : Str) (acc : List Str) (skill : Str) : List Str :=
  if containsSub lowerJD (toLowerS skill) then
    let formatted := formatSkill skill
    if acc.contains formatted then acc else acc ++ [formatted]
  else acc

def extractSkills (jd : Str) : List Str :=
  SKILL_KEYWORDS.foldl (skillStep (toLowerS jd)) []

/-! ## Location extraction -/

def locLeads : List Str := [str "location", str "based in", str "office", str "work from"]

def cityNames : List Str := [str "bangalore", str "bengaluru", str "mumbai", str "delhi",
  str "hyderabad", str "chennai", str "pune", str "kolkata", str "noida", str "gurgaon",
  str "gurugram"]

def stateNames : List Str := [str "india", str "karnataka", str "maharashtra",
  str "telangana", str "tamil nadu"]

/-- Closer of location pattern 1: `(?:\.|,|$|\n)` (the `$` has no `m`
flag, so it is end of input). -/
def locCloser : M := mAlt [mLit (str "."), mLit (str ","), mEnd, mLit (str "\n")]

/-- Pattern `(?:location|based in|office|work from)[\s:]+([a-z\s,]+?)(?:\.|,|$|\n)`;
results are `(whole, group 1, rest)`. -/
def locPat1At (s : Str) : List (Str × Option Str × Str) :=
  ((mSeq (mAlt (locLeads.map mLit)) (mPlusG isWsColon)) s).flatMap (fun a =>
    (mPlusL isLocCls a.2).flatMap (fun b =>
      (locCloser b.2).map (fun cl => (a.1 ++ b.1 ++ cl.1, some b.1, cl.2))))

/-- Pattern `(bangalore|...|gurugram)[,\s]*(india|...|tamil nadu)?`. -/
def locPat2At (s : Str) : List (Str × Option Str × Str) :=
  ((mAlt (cityNames.map mLit)) s).flatMap (fun a =>
    (mStarG isCommaWs a.2).flatMap (fun b =>
      (mOpt (mAlt (stateNames.map mLit)) b.2).map (fun cl =>
        (a.1 ++ b.1 ++ cl.1, some a.1, cl.2))))

/-- Pattern `(?:remote|work from home|wfh)` (no capture group). -/
def locPat3At (s : Str) : List (Str × Option Str × Str) :=
  ((mAlt [mLit (str "remote"), mLit (str "work from home"), mLit (str "wfh")]) s).map
    (fun a => (a.1, none, a.2))

def locFirstMatch (jd : Str) : Option (Str × Option Str × Str) :=
  match searchPos locPat1At jd with
  | some m => some m
  | none =>
    match searchPos locPat2At jd with
    | some m => some m
    | none => searchPos locPat3At jd

/-- Per-word `w.charAt(0).toUpperCase() + w.slice(1).toLowerCase()`. -/
def locTitleCase (s : Str) : Str :=
  joinSpace ((splitOnSpace s).map capLowerRest)

def extractLocation (jd : Str) : Str :=
  match locFirstMatch jd with
  | none => []
  | some m =>
    let loc :=
      if containsSub m.1 (str "remote") || containsSub m.1 (str "wfh") then str "Remote"
      else trimWs (m.2.1.getD [])
    locTitleCase loc

/-! ## Intake extraction -/

def intakeWords1 : List M := [mLit (str "positions"), mLit (str "position"),
  mLit (str "openings"), mLit (str "opening"), mLit (str "vacancies"), mLit (str "vacancie"),
  mLit (str "interns"), mLit (str "intern"), mLit (str "candidates"), mLit (str "candidate")]

def intakeLeads2 : List Str := [str "hiring", str "need", str "require", str "looking for"]

def intakeWords3 : List M := [mLit (str "positions"), mLit (str "position"),
  mLit (str "openings"), mLit (str "opening")]

/-- Pattern `(\d+)\s*(?:positions?|openings?|vacancies?|interns?|candidates?)`;
results are `(group 1, rest)`. -/
def intakePat1At (s : Str) : List (Str × Str) :=
  (mPlusG isDigitCh s).flatMap (fun a =>
    ((mSeq (mStarG isWsCh) (mAlt intakeWords1)) a.2).map (fun b => (a.1, b.2)))

/-- Pattern `(?:hiring|need|require|looking for)\s*(\d+)`. -/
def intakePat2At (s : Str) : List (Str × Str) :=
  ((mSeq (mAlt (intakeLeads2.map mLit)) (mStarG isWsCh)) s).flatMap (fun a =>
    (mPlusG isDigitCh a.2).map (fun b => (b.1, b.2)))

/-- Pattern `(?:positions?|openings?)\s*(?:available)?[\s:]*(\d+)`. -/
def intakePat3At (s : Str) : List (Str × Str) :=
  ((mSeq (mAlt intakeWords3)
      (mSeq (mStarG isWsCh) (mSeq (mOpt (mLit (str "available"))) (mStarG isWsColon)))) s).flatMap
    (fun a => (mPlusG isDigitCh a.2).map (fun b => (b.1, b.2)))

def intakeFirstMatch (jd : Str) : Option (Str × Str) :=
  match searchPos intakePat1At jd with
  | some m => some m
  | none =>
    match searchPos intakePat2At jd with
    | some m => some m
    | none => searchPos intakePat3At jd

/-- Source `parseInt(match[1], 10) || 1`, defaulting to 1 when no pattern
matches (the captured text is all digits, so only a zero value is falsy). -/
def extractIntakeRaw (jd : Str) : Nat :=
  match intakeFirstMatch jd with
  | none => 1
  | some m => if parseDigits m.1 = 0 then 1 else parseDigits m.1

/-! ## Stipend extraction -/

def stipLeads : List Str := [str "stipend", str "salary", str "compensation", str "pay"]

/-- Pattern `rs\.?|inr|₹`. -/
def currencyM : M :=
  mAlt [mSeq (mLit (str "rs")) (mOpt (mLit (str "."))), mLit (str "inr"), mLit (str "₹")]

/-- Pattern `(\d{1,3}(?:,\d{3})*|\d+)`: the comma-grouped alternative first, then
a plain digit run. -/
def amountM : M := fun s =>
  ((mSeq (mRepG isDigitCh 1 3) mCommaGroups) s) ++ (mPlusG isDigitCh s)

/-- Pattern `(?:stipend|salary|compensation|pay)[\s:]*(?:rs\.?|inr|₹)?\s*(AMOUNT)(?:k|K)?`;
results are `(whole, group 1, rest)`. -/
def stipPat1At (s : Str) : List (Str × Str × Str) :=
  ((mSeq (mAlt (stipLeads.map mLit))
      (mSeq (mStarG isWsColon) (mSeq (mOpt currencyM) (mStarG isWsCh)))) s).flatMap (fun a =>
    (amountM a.2).flatMap (fun b =>
      (mOpt (mLit (str "k")) b.2).map (fun cl => (a.1 ++ b.1 ++ cl.1, b.1, cl.2))))

/-- Pattern `per month|\/month|p\.m\.?|pm`. -/
def perMonthM : M :=
  mAlt [mLit (str "per month"), mLit (str "/month"),
    mSeq (mLit (str "p.m")) (mOpt (mLit (str "."))), mLit (str "pm")]

/-- Pattern `(?:rs\.?|inr|₹)\s*(AMOUNT)(?:k|K)?\s*(?:per month|\/month|p\.m\.?|pm)`. -/
def stipPat2At (s : Str) : List (Str × Str × Str) :=
  ((mSeq currencyM (mStarG isWsCh)) s).flatMap (fun a =>
    (amountM a.2).flatMap (fun b =>
      ((mSeq (mOpt (mLit (str "k"))) (mSeq (mStarG isWsCh) perMonthM)) b.2).map (fun cl =>
        (a.1 ++ b.1 ++ cl.1, b.1, cl.2))))

def stipFirstMatch (jd : Str) : Option (Str × Str × Str) :=
  match searchPos stipPat1At jd with
  | some m => some m
  | none => searchPos stipPat2At jd

/-- Strip thousands separators, parse, and multiply by 1000 when the
matched span contains `k`/`K` (the redundant
`jd.toLowerCase().includes(match[0].toLowerCase())` conjunct of the
source is kept). -/
def extractStipend (jd : Str) : Option Nat :=
  match stipFirstMatch jd with
  | none => none
  | some m =>
    let amount := m.2.1.filter (fun c => c ≠ ',')
    let n := parseDigits amount
    if containsSub (toLowerS jd) (toLowerS m.1) &&
        (containsSub m.1 (str "k") || containsSub m.1 (str "K")) then
      some (n * 1000)
    else some n

/-! ## Perks extraction -/

def perksKeywords : List Str := [str "certificate", str "letter of recommendation", str "lor",
  str "flexible", str "remote", str "wfh", str "work from home", str "mentorship",
  str "training", str "ppo", str "pre-placement", str "bonus", str "health insurance",
  str "snacks", str "meals", str "team outings"]

def relabelPerk (perk : Str) : Str :=
  if perk = str "lor" then str "Letter of Recommendation"
  else if perk = str "ppo" then str "PPO (Pre-Placement Offer)"
  else if perk = str "wfh" then str "Work from Home"
  else joinSpace ((splitOnSpace perk).map capFirst)

def perkStep (lowerJD : Str) (acc : List Str) (perk : Str) : List Str :=
  if containsSub lowerJD perk then
    let formatted := relabelPerk perk
    if acc.contains formatted then acc else acc ++ [formatted]
  else acc

def extractPerks (jd : Str) : Option Str :=
  let found := perksKeywords.foldl (perkStep (toLowerS jd)) []
  if found.length > 0 then some (joinCommaSpace found) else none

/-! ## The analysis result -/

structure JDAnalysisResult where
  title : Str
  skills : List Str
  location : Str
  intake : Nat
  stipend : Option Nat
  perks : Option Str
deriving DecidableEq

/-- Source `analyzeJobDescription` (the artificial latency of the source is a UI
wrapper with no effect on the returned value). -/
def analyzeJobDescription (jd : Str) : JDAnalysisResult :=
  { title := extractTitle jd
    skills := (extractSkills jd).take 10
    location := extractLocation jd
    intake := min (extractIntakeRaw jd) 100
    stipend := extractStipend jd
    perks := extractPerks jd }

/-! ## Form state and operations (`CreateJob` component) -/

/-- The form's `useState` fields relevant to extraction, merge, edit and
validation (the `skillInput`, `error` and loading flags do not affect
these operations' results and are omitted; `hasAnalyzed` is kept because
the analyze handler sets it). -/
@[ext]
structure FormState where
  jobDescription : Str
  title : Str
  titleSuggested : Bool
  skills : List Str
  skillsSuggested : Bool
  locationLabel : Str
  locationSuggested : Bool
  intake : Str
  intakeSuggested : Bool
  stipend : Str
  stipendSuggested : Bool
  perks : Str
  perksSuggested : Bool
  hasAnalyzed : Bool
deriving DecidableEq

/-- The auto-fill merge of `handleAnalyzeJD`: each field with a truthy
extracted value is overwritten and marked AI-suggested; then
`setHasAnalyzed(true)`. -/
def applyExtraction (f0 : FormState) (r : JDAnalysisResult) : FormState :=
  let f1 := if r.title ≠ [] then { f0 with title := r.title, titleSuggested := true } else f0
  let f2 := if r.skills.length > 0 then { f1 with skills := r.skills, skillsSuggested := true } else f1
  let f3 := if r.location ≠ [] then { f2 with locationLabel := r.location, locationSuggested := true } else f2
  let f4 := if r.intake ≠ 0 then { f3 with intake := natToStr r.intake, intakeSuggested := true } else f3
  let f5 := match r.stipend with
    | some n => if n ≠ 0 then { f4 with stipend := natToStr n, stipendSuggested := true } else f4
    | none => f4
  let f6 := match r.perks with
    | some p => if p ≠ [] then { f5 with perks := p, perksSuggested := true } else f5
    | none => f5
  { f6 with hasAnalyzed := true }

/-- The title `Input`'s `onChange`: a direct user edit that sets the value
and clears the AI-suggested flag. -/
def userEditTitle (f : FormState) (v : Str) : FormState :=
  { f with title := v, titleSuggested := false }

def userEditLocation (f : FormState) (v : Str) : FormState :=
  { f with locationLabel := v, locationSuggested := false }

def userEditIntake (f : FormState) (v : Str) : FormState :=
  { f with intake := v, intakeSuggested := false }

def userEditStipend (f : FormState) (v : Str) : FormState :=
  { f with stipend := v, stipendSuggested := false }

def userEditPerks (f : FormState) (v : Str) : FormState :=
  { f with perks := v, perksSuggested := false }

/-- Source `handleAddSkill`, with the pending input passed explicitly. -/
def handleAddSkill (f : FormState) (input : Str) : FormState :=
  let trimmed := trimWs input
  if trimmed ≠ [] ∧ ¬ f.skills.contains trimmed then
    { f with skills := f.skills ++ [trimmed], skillsSuggested := false }
  else f

/-- Source `handleRemoveSkill` (the flag check reads the pre-removal list, as the
source closure does). -/
def handleRemoveSkill (f : FormState) (skill : Str) : FormState :=
  let f1 := { f with skills := f.skills.filter (fun s => s ≠ skill) }
  if f.skills.length ≤ 1 then { f1 with skillsSuggested := false } else f1

/-! ## Validation (`handleSubmit`) -/

def errJDMsg : Str := str "A detailed job description is required (at least 100 characters)"

def errTitleMsg : Str := str "Job title is required"

def errSkillsMsg : Str := str "At least one skill is required"

def errLocationMsg : Str := str "Location is required"

def errIntakeMsg : Str := str "Intake capacity must be at least 1"

/-- Check `!jobDescription.trim() || jobDescription.length < 100`. -/
def ruleJD (f : FormState) : Bool :=
  (trimWs f.jobDescription).isEmpty || f.jobDescription.length < 100

/-- Check `!title.trim()`. -/
def ruleTitle (f : FormState) : Bool := (trimWs f.title).isEmpty

/-- Check `skills.length === 0`. -/
def ruleSkills (f : FormState) : Bool := f.skills.length == 0

/-- Check `!locationLabel.trim()`. -/
def ruleLocation (f : FormState) : Bool := (trimWs f.locationLabel).isEmpty

/-- Check `isNaN(parseInt(intake, 10)) || parseInt(intake, 10) < 1`. -/
def ruleIntake (f : FormState) : Bool :=
  match parseIntJS f.intake with
  | none => true
  | some n => n < 1

/-- The guard chain of `handleSubmit`: the first failing check sets the
error message and returns; `none` means validation passed. -/
def handleSubmit (f : FormState) : Option Str :=
  if ruleJD f then some errJDMsg
  else if ruleTitle f then some errTitleMsg
  else if ruleSkills f then some errSkillsMsg
  else if ruleLocation f then some errLocationMsg
  else if ruleIntake f then some errIntakeMsg
  else none

/-! ## Concrete inputs used by counterexamples and witnesses -/

def emptyForm : FormState :=
  { jobDescription := [], title := [], titleSuggested := false, skills := [],
    skillsSuggested := false, locationLabel := [], locationSuggested := false,
    intake := [], intakeSuggested := false, stipend := [], stipendSuggested := false,
    perks := [], perksSuggested := false, hasAnalyzed := false }

def r0 : JDAnalysisResult :=
  { title := str "Intern", skills := [], location := [], intake := 1, stipend := none,
    perks := none }

def badForm : FormState :=
  { emptyForm with jobDescription := List.replicate 50 'a', intake := str "0" }

def okJDNoTitleForm : FormState :=
  { emptyForm with jobDescription := List.replicate 100 'a' }

def padDoc : Str := List.replicate 95 ' ' ++ str "hello"

def padForm : FormState :=
  { emptyForm with
    jobDescription := padDoc, title := str "x", skills := [str "React"],
    locationLabel := str "y", intake := str "5" }

def doc150 : Str := str "150 positions available"

def stipDoc1 : Str := str "stipend: 15k per month"

def stipDoc2 : Str := str "stipend: 15000"

def stipDoc3 : Str := str "The role offers great growth"

def stipDoc4 : Str := str "stipend: 15,000"

/-! ## Projection equations for the auto-fill merge -/

theorem apply_jobDescription (f : FormState) (r : JDAnalysisResult) :
    (applyExtraction f r).jobDescription = f.jobDescription := by
  cases hst : r.stipend <;> cases hp : r.perks <;>
    simp [applyExtraction, hst, hp, apply_ite FormState.jobDescription, ite_self, ne_eq, ite_not]

theorem apply_title (f : FormState) (r : JDAnalysisResult) :
    (applyExtraction f r).title = if r.title = [] then f.title else r.title := by
  cases hst : r.stipend <;> cases hp : r.perks <;>
    simp [applyExtraction, hst, hp, apply_ite FormState.title, ite_self, ne_eq, ite_not]

theorem apply_titleSuggested (f : FormState) (r : JDAnalysisResult) :
    (applyExtraction f r).titleSuggested = if r.title = [] then f.titleSuggested else true := by
  cases hst : r.stipend <;> cases hp : r.perks <;>
    simp [applyExtraction, hst, hp, apply_ite FormState.titleSuggested, ite_self, ne_eq, ite_not]

theorem apply_skills (f : FormState) (r : JDAnalysisResult) :
    (applyExtraction f r).skills = if r.skills = [] then f.skills else r.skills := by
  cases hsk : r.skills <;> cases hst : r.stipend <;> cases hp : r.perks <;>
    simp [applyExtraction, hsk, hst, hp, apply_ite FormState.skills, ite_self, ne_eq, ite_not]

theorem apply_skillsSuggested (f : FormState) (r : JDAnalysisResult) :
    (applyExtraction f r).skillsSuggested
      = if r.skills = [] then f.skillsSuggested else true := by
  cases hsk : r.skills <;> cases hst : r.stipend <;> cases hp : r.perks <;>
    simp [applyExtraction, hsk, hst, hp, apply_ite FormState.skillsSuggested, ite_self, ne_eq,
      ite_not]

theorem apply_locationLabel (f : FormState) (r : JDAnalysisResult) :
    (applyExtraction f r).locationLabel
      = if r.location = [] then f.locationLabel else r.location := by
  cases hst : r.stipend <;> cases hp : r.perks <;>
    simp [applyExtraction, hst, hp, apply_ite FormState.locationLabel, ite_self, ne_eq, ite_not]

theorem apply_locationSuggested (f : FormState) (r : JDAnalysisResult) :
    (applyExtraction f r).locationSuggested
      = if r.location = [] then f.locationSuggested else true := by
  cases hst : r.stipend <;> cases hp : r.perks <;>
    simp [applyExtraction, hst, hp, apply_ite FormState.locationSuggested, ite_self, ne_eq,
      ite_not]

theorem apply_intake (f : FormState) (r : JDAnalysisResult) :
    (applyExtraction f r).intake = if r.intake = 0 then f.intake else natToStr r.intake := by
  cases hst : r.stipend <;> cases hp : r.perks <;>
    simp [applyExtraction, hst, hp, apply_ite FormState.intake, ite_self, ne_eq, ite_not]

theorem apply_intakeSuggested (f : FormState) (r : JDAnalysisResult) :
    (applyExtraction f r).intakeSuggested
      = if r.intake = 0 then f.intakeSuggested else true := by
  cases hst : r.stipend <;> cases hp : r.perks <;>
    simp [applyExtraction, hst, hp, apply_ite FormState.intakeSuggested, ite_self, ne_eq, ite_not]

theorem apply_stipend (f : FormState) (r : JDAnalysisResult) :
    (applyExtraction f r).stipend = (match r.stipend with
      | some n => if n = 0 then f.stipend else natToStr n
      | none => f.stipend) := by
  cases hst : r.stipend <;> cases hp : r.perks <;>
    simp [applyExtraction, hst, hp, apply_ite FormState.stipend, ite_self, ne_eq, ite_not]

theorem apply_stipendSuggested (f : FormState) (r : JDAnalysisResult) :
    (applyExtraction f r).stipendSuggested = (match r.stipend with
      | some n => if n = 0 then f.stipendSuggested else true
      | none => f.stipendSuggested) := by
  cases hst : r.stipend <;> cases hp : r.perks <;>
    simp [applyExtraction, hst, hp, apply_ite FormState.stipendSuggested, ite_self, ne_eq,
      ite_not]

theorem apply_perks (f : FormState) (r : JDAnalysisResult) :
    (applyExtraction f r).perks = (match r.perks with
      | some p => if p = [] then f.perks else p
      | none => f.perks) := by
  cases hst : r.stipend <;> cases hp : r.perks <;>
    simp [applyExtraction, hst, hp, apply_ite FormState.perks, ite_self, ne_eq, ite_not]

theorem apply_perksSuggested (f : FormState) (r : JDAnalysisResult) :
    (applyExtraction f r).perksSuggested = (match r.perks with
      | some p => if p = [] then f.perksSuggested else true
      | none => f.perksSuggested) := by
  cases hst : r.stipend <;> cases hp : r.perks <;>
    simp [applyExtraction, hst, hp, apply_ite FormState.perksSuggested, ite_self, ne_eq, ite_not]

theorem apply_hasAnalyzed (f : FormState) (r : JDAnalysisResult) :
    (applyExtraction f r).hasAnalyzed = true := by
  cases hst : r.stipend <;> cases hp : r.perks <;>
    simp [applyExtraction, hst, hp, apply_ite FormState.hasAnalyzed, ite_self, ne_eq, ite_not]

/-- C9. Applying the same extraction result twice yields the same form
state as applying it once; the merge conditions depend only on the result,
so this holds for every form state (in particular those with no
user-confirmed field). -/
theorem applyExtraction_idempotent (f : FormState) (r : JDAnalysisResult) :
    applyExtraction (applyExtraction f r) r = applyExtraction f r := by
  ext <;> cases hst : r.stipend <;> cases hp : r.perks <;>
    simp [apply_jobDescription, apply_title, apply_titleSuggested, apply_skills,
      apply_skillsSuggested, apply_locationLabel, apply_locationSuggested, apply_intake,
      apply_intakeSuggested, apply_stipend, apply_stipendSuggested, apply_perks,
      apply_perksSuggested, apply_hasAnalyzed, hst, hp] <;>
    split_ifs <;> rfl

/-- C1 (counterexample). A user edit sets the title, yet a subsequent
`applyExtraction` with a truthy extracted title changes it. -/
theorem userEdit_not_protected :
    (applyExtraction (userEditTitle emptyForm (str "Data Wizard")) r0).title
      ≠ (userEditTitle emptyForm (str "Data Wizard")).title := by decide

/-- C1 (amended). `applyExtraction` overwrites each of the six fields
exactly when the extraction result carries a truthy value for it,
regardless of any earlier user edit; a falsy extracted value leaves the
field untouched. -/
theorem applyExtraction_overwrites_truthy (f : FormState) (r : JDAnalysisResult) :
    (applyExtraction f r).title = (if r.title = [] then f.title else r.title)
  ∧ (applyExtraction f r).skills = (if r.skills = [] then f.skills else r.skills)
  ∧ (applyExtraction f r).locationLabel
      = (if r.location = [] then f.locationLabel else r.location)
  ∧ (applyExtraction f r).intake = (if r.intake = 0 then f.intake else natToStr r.intake)
  ∧ (applyExtraction f r).stipend = (match r.stipend with
      | some n => if n = 0 then f.stipend else natToStr n
      | none => f.stipend)
  ∧ (applyExtraction f r).perks = (match r.perks with
      | some p => if p = [] then f.perks else p
      | none => f.perks) :=
  ⟨apply_title f r, apply_skills f r, apply_locationLabel f r, apply_intake f r,
    apply_stipend f r, apply_perks f r⟩

/-- C2 (counterexample). A form violating all five rules at once gets only
the first rule's error message from `handleSubmit`. -/
theorem handleSubmit_first_only :
    ruleJD badForm = true ∧ ruleTitle badForm = true ∧ ruleSkills badForm = true
  ∧ ruleLocation badForm = true ∧ ruleIntake badForm = true
  ∧ handleSubmit badForm = some errJDMsg ∧ errJDMsg ≠ errIntakeMsg := by decide

/-- C2 (amended). Validation short-circuits: `handleSubmit` reports only
the first violated rule in the declared order, and passes when no rule is
violated. -/
theorem handleSubmit_short_circuits (f : FormState) :
    (ruleJD f = true → handleSubmit f = some errJDMsg)
  ∧ (ruleJD f = false → ruleTitle f = true → handleSubmit f = some errTitleMsg)
  ∧ (ruleJD f = false → ruleTitle f = false → ruleSkills f = true →
      handleSubmit f = some errSkillsMsg)
  ∧ (ruleJD f = false → ruleTitle f = false → ruleSkills f = false → ruleLocation f = true →
      handleSubmit f = some errLocationMsg)
  ∧ (ruleJD f = false → ruleTitle f = false → ruleSkills f = false → ruleLocation f = false →
      ruleIntake f = true → handleSubmit f = some errIntakeMsg)
  ∧ (ruleJD f = false → ruleTitle f = false → ruleSkills f = false → ruleLocation f = false →
      ruleIntake f = false → handleSubmit f = none) := by
  unfold handleSubmit
  refine ⟨?_, ?_, ?_, ?_, ?_, ?_⟩ <;> intros <;> simp_all

/-- C2 (witness). A concrete form whose only failing rules start at the
title check is reported exactly the title message. -/
theorem handleSubmit_short_circuits_witness :
    handleSubmit okJDNoTitleForm = some errTitleMsg :=
  (handleSubmit_short_circuits okJDNoTitleForm).2.1 (by decide) (by decide)

/-- C4 (counterexample). A 100-character document consisting of 95 spaces
and "hello" has trimmed length 5 < 100, yet submission validation accepts
the form: the length check uses the untrimmed length. -/
theorem lengthCheck_untrimmed :
    padDoc.length = 100 ∧ (trimWs padDoc).length = 5 ∧ handleSubmit padForm = none := by
  decide

/-- C4 (amended). `handleSubmit` reports the too-short error exactly when
the trimmed document is empty or the untrimmed character count is below
100. -/
theorem handleSubmit_jd_rule (f : FormState) :
    handleSubmit f = some errJDMsg
      ↔ (trimWs f.jobDescription = [] ∨ f.jobDescription.length < 100) := by
  unfold handleSubmit ruleJD
  split_ifs with h1 h2 h3 h4 h5 <;>
    simp_all [List.isEmpty_iff, errJDMsg, errTitleMsg, errSkillsMsg, errLocationMsg,
      errIntakeMsg, str]

/-- C4 (witness). A 50-character document is reported too short. -/
theorem handleSubmit_jd_rule_witness : handleSubmit badForm = some errJDMsg :=
  (handleSubmit_jd_rule badForm).mpr (Or.inr (by decide))

set_option maxHeartbeats 2000000 in
/-- C5. Stipend extraction at the spec's inputs: "15k per month" expands
to 15000; a document with no stipend phrase yields an unset stipend; a
comma-separated amount is parsed with separators stripped; but the plain
amount "15000" is captured only as "150" by the first regex alternative. -/
theorem extractStipend_eval :
    extractStipend stipDoc1 = some 15000
  ∧ extractStipend stipDoc2 = some 150
  ∧ extractStipend stipDoc3 = none
  ∧ extractStipend stipDoc4 = some 15000 := by decide

theorem one_le_extractIntakeRaw (jd : Str) : 1 ≤ extractIntakeRaw jd := by
  unfold extractIntakeRaw
  cases h : intakeFirstMatch jd
  · simp
  · simp only
    split_ifs with h0
    · simp
    · omega

/-- C6. The extracted intake always lies in [1, 100]; it is 1 when no
intake pattern matches, and clamps to 100 when the captured count is at
least 100. -/
theorem intake_clamped (jd : Str) :
    (1 ≤ (analyzeJobDescription jd).intake ∧ (analyzeJobDescription jd).intake ≤ 100)
  ∧ (intakeFirstMatch jd = none → (analyzeJobDescription jd).intake = 1)
  ∧ (∀ m, intakeFirstMatch jd = some m → 100 ≤ parseDigits m.1 →
      (analyzeJobDescription jd).intake = 100) := by
  have hint : (analyzeJobDescription jd).intake = min (extractIntakeRaw jd) 100 := rfl
  refine ⟨⟨?_, ?_⟩, ?_, ?_⟩
  · rw [hint]
    have := one_le_extractIntakeRaw jd
    omega
  · rw [hint]; omega
  · intro h
    rw [hint]
    unfold extractIntakeRaw
    rw [h]
    simp
  · intro m hm h100
    rw [hint]
    have hr : extractIntakeRaw jd = if parseDigits m.1 = 0 then 1 else parseDigits m.1 := by
      unfold extractIntakeRaw
      rw [hm]
    rw [hr]
    split_ifs with h0 <;> omega

/-- C6 (witness). "150 positions available" clamps to 100. -/
theorem intake_clamped_witness : (analyzeJobDescription doc150).intake = 100 :=
  (intake_clamped doc150).2.2 (str "150", str " available") rfl (by decide)

/-! ## Skill-list structure (C7) -/

def doc15 : Str := str "react angular vue javascript typescript python java node.js nodejs express mongodb sql mysql postgresql aws"

/-- Each fold step either keeps the accumulator or pushes one new
formatted skill, so the new entries form a deduplicated sublist of the
formatted vocabulary in scan order. -/
theorem skillStep_foldl_spec (lowerJD : Str) :
    ∀ (l : List Str) (acc : List Str), ∃ e, l.foldl (skillStep lowerJD) acc = acc ++ e
      ∧ e.Sublist (l.map formatSkill) ∧ (∀ x ∈ e, x ∉ acc) ∧ e.Nodup := by
  intro l
  induction l with
  | nil => exact fun acc => ⟨[], by simp, by simp, by simp, by simp⟩
  | cons sk t ih =>
    intro acc
    rw [List.foldl_cons]
    by_cases hc : containsSub lowerJD (toLowerS sk) = true
    · by_cases hm : formatSkill sk ∈ acc
      · obtain ⟨e, he, hs, hn, hd⟩ := ih acc
        have hct : acc.contains (formatSkill sk) = true := List.elem_iff.mpr hm
        have hstep : skillStep lowerJD acc sk = acc := by
          simp [skillStep, hc, hct, hm]
        exact ⟨e, by rw [hstep, he], hs.cons _, hn, hd⟩
      · obtain ⟨e, he, hs, hn, hd⟩ := ih (acc ++ [formatSkill sk])
        have hstep : skillStep lowerJD acc sk = acc ++ [formatSkill sk] := by
          have : acc.contains (formatSkill sk) = false := by
            rcases h : acc.contains (formatSkill sk) with _ | _
            · rfl
            · exact absurd (List.elem_iff.mp h) hm
          simp [skillStep, hc, this, hm]
        refine ⟨formatSkill sk :: e, ?_, hs.cons₂ _, ?_, ?_⟩
        · rw [hstep, he, List.append_assoc, List.singleton_append]
        · intro x hx
          rcases List.mem_cons.mp hx with rfl | hx'
          · exact hm
          · intro hxa
            exact hn x hx' (List.mem_append_left _ hxa)
        · refine List.nodup_cons.mpr ⟨?_, hd⟩
          intro hfe
          exact hn _ hfe (List.mem_append_right _ (List.mem_singleton.mpr rfl))
    · obtain ⟨e, he, hs, hn, hd⟩ := ih acc
      have hstep : skillStep lowerJD acc sk = acc := by
        simp [skillStep, hc]
      exact ⟨e, by rw [hstep, he], hs.cons _, hn, hd⟩

theorem extractSkills_sublist (jd : Str) :
    (extractSkills jd).Sublist (SKILL_KEYWORDS.map formatSkill)
      ∧ (extractSkills jd).Nodup := by
  obtain ⟨e, he, hs, _, hd⟩ := skillStep_foldl_spec (toLowerS jd) SKILL_KEYWORDS []
  unfold extractSkills
  rw [he, List.nil_append]
  exact ⟨hs, hd⟩

set_option maxHeartbeats 2000000 in
/-- C7. The extracted skill list has at most 10 entries, no duplicates,
and is a sublist of the formatted vocabulary in vocabulary-scan order; a
document containing 15 distinct vocabulary skills (several of which also
occur as substrings of each other) yields exactly the first 10 in
vocabulary order. -/
theorem skills_capped_dedup_ordered :
    (∀ jd : Str, (analyzeJobDescription jd).skills.length ≤ 10
      ∧ (analyzeJobDescription jd).skills.Nodup
      ∧ (analyzeJobDescription jd).skills.Sublist (SKILL_KEYWORDS.map formatSkill))
  ∧ (analyzeJobDescription doc15).skills
      = [str "React", str "Angular", str "Vue", str "Javascript", str "Typescript",
         str "Python", str "Java", str "Node.js", str "Nodejs", str "Express"] := by
  constructor
  · intro jd
    obtain ⟨hs, hd⟩ := extractSkills_sublist jd
    have hsk : (analyzeJobDescription jd).skills = (extractSkills jd).take 10 := rfl
    refine ⟨?_, ?_, ?_⟩
    · rw [hsk]
      simp [List.length_take]
    · rw [hsk]
      exact ((extractSkills jd).take_sublist 10).nodup hd
    · rw [hsk]
      exact ((extractSkills jd).take_sublist 10).trans hs
  · decide

/-! ## Title pattern priority (C8) -/

def titleDocBoth : Str := str "We are hiring a frontend developer. position: marketing manager"

/-- C8. The three title patterns are tried in declared order and the first
one with a match anywhere in the document supplies the title (no scoring
across patterns); when none matches, the fixed keyword table is consulted
in its fixed order, defaulting to "Intern". -/
theorem title_pattern_priority (jd : Str) :
    (∀ m, searchPos titlePat1At jd = some m → extractTitle jd = normTitle m.1)
  ∧ (searchPos titlePat1At jd = none → ∀ m, searchPos titlePat2At jd = some m →
      extractTitle jd = normTitle m.1)
  ∧ (searchPos titlePat1At jd = none → searchPos titlePat2At jd = none →
      ∀ m, searchLineStart (titleGroupM roleWords3) true jd = some m →
      extractTitle jd = normTitle m.1)
  ∧ (searchPos titlePat1At jd = none → searchPos titlePat2At jd = none →
      searchLineStart (titleGroupM roleWords3) true jd = none →
      extractTitle jd = titleFallback (toLowerS jd))
  ∧ (searchPos titlePat1At jd = none → searchPos titlePat2At jd = none →
      searchLineStart (titleGroupM roleWords3) true jd = none →
      (containsSub (toLowerS jd) (str "software")
        && containsSub (toLowerS jd) (str "intern")) = false →
      containsSub (toLowerS jd) (str "frontend") = false →
      containsSub (toLowerS jd) (str "backend") = false →
      containsSub (toLowerS jd) (str "full stack") = false →
      containsSub (toLowerS jd) (str "fullstack") = false →
      containsSub (toLowerS jd) (str "data analyst") = false →
      containsSub (toLowerS jd) (str "data science") = false →
      containsSub (toLowerS jd) (str "marketing") = false →
      containsSub (toLowerS jd) (str "design") = false →
      extractTitle jd = str "Intern") := by
  refine ⟨?_, ?_, ?_, ?_, ?_⟩
  · intro m hm
    unfold extractTitle titleFirstMatch
    rw [hm]
  · intro h1 m hm
    unfold extractTitle titleFirstMatch
    rw [h1, hm]
  · intro h1 h2 m hm
    unfold extractTitle titleFirstMatch
    rw [h1, h2, hm]
    rfl
  · intro h1 h2 h3
    unfold extractTitle titleFirstMatch
    rw [h1, h2, h3]
    rfl
  · intro h1 h2 h3 k1 k2 k3 k4 k5 k6 k7 k8 k9
    unfold extractTitle titleFirstMatch
    rw [h1, h2, h3]
    unfold titleFallback
    rw [k1, k2, k3, k4, k5, k6, k7, k8, k9]
    rfl

set_option maxHeartbeats 2000000 in
/-- C8 (witness). A document matching title patterns 1 and 2
simultaneously takes its title from pattern 1. -/
theorem title_pattern_priority_witness :
    searchPos titlePat2At titleDocBoth = some (str "marketing manager", [])
  ∧ extractTitle titleDocBoth = normTitle (str "frontend developer") :=
  ⟨by decide,
    (title_pattern_priority titleDocBoth).1
      (str "frontend developer", str ". position: marketing manager") (by decide)⟩

/-! ## Non-emptiness of the extracted title (C10) -/

theorem capFirst_length (w : Str) : (capFirst w).length = w.length := by
  cases w <;> simp [capFirst]

theorem splitOnSpace_ne_nil (s : Str) : splitOnSpace s ≠ [] := by
  cases s with
  | nil => simp [splitOnSpace]
  | cons c t =>
    by_cases hc : c = ' '
    · simp [splitOnSpace, hc]
    · simp only [splitOnSpace, hc, if_false]
      cases h : splitOnSpace t <;> simp

theorem joinSpace_cons_cons (w : Str) (w2 : Str) (ws : List Str) :
    joinSpace ((w ++ w2) :: ws) = w ++ joinSpace (w2 :: ws) := by
  cases ws <;> simp [joinSpace]

theorem joinSpace_splitOnSpace (s : Str) : joinSpace (splitOnSpace s) = s := by
  induction s with
  | nil => rfl
  | cons c t ih =>
    by_cases hc : c = ' '
    · subst hc
      have h1 : splitOnSpace (' ' :: t) = [] :: splitOnSpace t := by simp [splitOnSpace]
      rw [h1]
      cases h : splitOnSpace t with
      | nil => exact absurd h (splitOnSpace_ne_nil t)
      | cons w ws =>
        rw [h] at ih
        simp [joinSpace, ih]
    · have h1 : splitOnSpace (c :: t) = (match splitOnSpace t with
        | [] => [[c]]
        | w :: ws => (c :: w) :: ws) := by simp [splitOnSpace, hc]
      cases h : splitOnSpace t with
      | nil => exact absurd h (splitOnSpace_ne_nil t)
      | cons w ws =>
        rw [h] at h1 ih
        rw [h1]
        dsimp only
        have h2 : ((c :: w) : Str) = [c] ++ w := rfl
        rw [h2, joinSpace_cons_cons, ih]
        rfl

theorem joinSpace_map_capFirst_length (ws : List Str) :
    (joinSpace (ws.map capFirst)).length = (joinSpace ws).length := by
  induction ws with
  | nil => rfl
  | cons w t ih =>
    cases t with
    | nil => simp [joinSpace, capFirst_length]
    | cons w2 t2 =>
      simp only [List.map_cons, joinSpace, List.length_append, List.length_cons]
      simp only [List.map_cons] at ih
      rw [capFirst_length, ih]

theorem normTitle_length (g : Str) :
    (normTitle g).length = (collapseWs (trimWs g)).length := by
  unfold normTitle
  rw [joinSpace_map_capFirst_length, joinSpace_splitOnSpace]

theorem collapseGo_ne_nil (s : Str) (c : Char) (hc : c ∈ s) (hw : isWsCh c = false) :
    ∀ fl, collapseGo fl s ≠ [] := by
  induction s with
  | nil => cases hc
  | cons d t ih =>
    intro fl
    by_cases hd : isWsCh d = true
    · rcases List.mem_cons.mp hc with rfl | hct
      · rw [hw] at hd; cases hd
      · cases fl
        · simp [collapseGo, hd]
        · simp only [collapseGo, hd, if_pos, if_true]
          exact ih hct true
    · simp [collapseGo, hd]

theorem mem_dropWhile_of_not (p : Char → Bool) (s : Str) (c : Char) (hc : c ∈ s)
    (hp : p c = false) : c ∈ s.dropWhile p := by
  induction s with
  | nil => cases hc
  | cons d t ih =>
    by_cases hd : p d = true
    · rcases List.mem_cons.mp hc with rfl | hct
      · rw [hp] at hd; cases hd
      · rw [List.dropWhile_cons_of_pos hd]
        exact ih hct
    · rw [List.dropWhile_cons_of_neg (by simpa using hd)]
      exact hc

theorem mem_trimWs (s : Str) (c : Char) (hc : c ∈ s) (hw : isWsCh c = false) :
    c ∈ trimWs s := by
  unfold trimWs
  rw [List.mem_reverse]
  apply mem_dropWhile_of_not _ _ _ _ hw
  rw [List.mem_reverse]
  exact mem_dropWhile_of_not _ _ _ hc hw

theorem normTitle_ne_nil (g : Str) (h : ∃ c ∈ g, isWsCh c = false) : normTitle g ≠ [] := by
  obtain ⟨c, hc, hw⟩ := h
  have h1 : c ∈ trimWs g := mem_trimWs g c hc hw
  have h2 : collapseWs (trimWs g) ≠ [] := collapseGo_ne_nil (trimWs g) c h1 hw false
  have h3 : (normTitle g).length = (collapseWs (trimWs g)).length := normTitle_length g
  intro hn
  rw [hn] at h3
  exact h2 (List.eq_nil_of_length_eq_zero h3.symm)

theorem searchPos_mem {α : Type} (patAt : Str → List α) :
    ∀ (s : Str) (a : α), searchPos patAt s = some a → ∃ t, a ∈ patAt t := by
  intro s
  induction s with
  | nil =>
    intro a ha
    simp only [searchPos] at ha
    cases h : patAt [] with
    | nil => rw [h] at ha; cases ha
    | cons r rs =>
      rw [h] at ha
      simp only [List.head?] at ha
      exact ⟨[], by rw [h]; exact List.mem_cons.mpr (Or.inl (Option.some.inj ha).symm)⟩
  | cons c t ih =>
    intro a ha
    simp only [searchPos] at ha
    cases h : patAt (c :: t) with
    | nil => rw [h] at ha; exact ih a ha
    | cons r rs =>
      rw [h] at ha
      exact ⟨c :: t, by rw [h]; exact List.mem_cons.mpr (Or.inl (Option.some.inj ha).symm)⟩

theorem searchLineStart_mem {α : Type} (patAt : Str → List α) :
    ∀ (s : Str) (fl : Bool) (a : α), searchLineStart patAt fl s = some a → ∃ t, a ∈ patAt t := by
  intro s
  induction s with
  | nil =>
    intro fl a ha
    simp only [searchLineStart] at ha
    cases fl with
    | false => simp at ha
    | true =>
      simp only [if_true] at ha
      cases h : patAt [] with
      | nil => rw [h] at ha; cases ha
      | cons r rs =>
        rw [h] at ha
        simp only [List.head?] at ha
        exact ⟨[], by rw [h]; exact List.mem_cons.mpr (Or.inl (Option.some.inj ha).symm)⟩
  | cons c t ih =>
    intro fl a ha
    simp only [searchLineStart] at ha
    cases fl with
    | false =>
      exact ih _ a (by simpa using ha)
    | true =>
      simp only [if_true] at ha
      cases h : patAt (c :: t) with
      | nil => rw [h] at ha; exact ih _ a ha
      | cons r rs =>
        rw [h] at ha
        exact ⟨c :: t, by rw [h]; exact List.mem_cons.mpr (Or.inl (Option.some.inj ha).symm)⟩

theorem mLit_mem (lit : Str) (s : Str) (x : Str × Str) (hx : x ∈ mLit lit s) :
    toLowerS x.1 = lit := by
  unfold mLit at hx
  split at hx
  · rcases List.mem_singleton.mp hx with rfl
    assumption
  · cases hx

theorem mAlt_mapLit_mem (lits : List Str) (s : Str) (x : Str × Str)
    (hx : x ∈ mAlt (lits.map mLit) s) : ∃ lit ∈ lits, toLowerS x.1 = lit := by
  unfold mAlt at hx
  rw [List.mem_flatMap] at hx
  obtain ⟨p, hp, hxp⟩ := hx
  rw [List.mem_map] at hp
  obtain ⟨lit, hl, rfl⟩ := hp
  exact ⟨lit, hl, mLit_mem _ _ _ hxp⟩

theorem titleGroupM_mem (roles : List Str) (s : Str) (m : Str × Str)
    (hm : m ∈ titleGroupM roles s) :
    ∃ aa bb, m.1 = aa ++ bb ∧ ∃ role ∈ roles, toLowerS bb = role := by
  unfold titleGroupM at hm
  rw [List.mem_flatMap] at hm
  obtain ⟨a, _, hm2⟩ := hm
  rw [List.mem_map] at hm2
  obtain ⟨b, hb, rfl⟩ := hm2
  obtain ⟨role, hrole, hlow⟩ := mAlt_mapLit_mem roles a.2 b hb
  exact ⟨a.1, b.1, rfl, role, hrole, hlow⟩

theorem lowerAlpha_not_ws (c : Char) (h : isLowerAlpha c.toLower = true) : isWsCh c = false := by
  cases hw : isWsCh c
  · rfl
  · exfalso
    have hcs : ((((c = ' ' ∨ c = '\t') ∨ c = '\n') ∨ c = '\r') ∨ c = '\x0b') ∨ c = '\x0c' := by
      simpa [isWsCh] using hw
    rcases hcs with ((((rfl | rfl) | rfl) | rfl) | rfl) | rfl <;> revert h <;> decide

theorem group_has_nonws (roles : List Str)
    (hroles : ∀ role ∈ roles, role ≠ [] ∧ ∀ ch ∈ role, isLowerAlpha ch = true)
    (s : Str) (m : Str × Str) (hm : m ∈ titleGroupM roles s) :
    ∃ c ∈ m.1, isWsCh c = false := by
  obtain ⟨aa, bb, hsum, role, hrole, hlow⟩ := titleGroupM_mem roles s m hm
  obtain ⟨hne, halpha⟩ := hroles role hrole
  cases bb with
  | nil => exact absurd hlow.symm hne
  | cons ch bb2 =>
    refine ⟨ch, ?_, ?_⟩
    · rw [hsum]
      exact List.mem_append_right _ (List.mem_cons_self _ _)
    · apply lowerAlpha_not_ws
      apply halpha
      rw [← hlow]
      exact List.mem_cons_self _ _

theorem titlePat1At_has_nonws (t : Str) (m : Str × Str) (hm : m ∈ titlePat1At t) :
    ∃ c ∈ m.1, isWsCh c = false := by
  unfold titlePat1At at hm
  rw [List.mem_flatMap] at hm
  obtain ⟨a, _, hm2⟩ := hm
  exact group_has_nonws roleWords1 (by decide) _ _ hm2

theorem titlePat2At_has_nonws (t : Str) (m : Str × Str) (hm : m ∈ titlePat2At t) :
    ∃ c ∈ m.1, isWsCh c = false := by
  unfold titlePat2At at hm
  rw [List.mem_flatMap] at hm
  obtain ⟨a, _, hm2⟩ := hm
  exact group_has_nonws roleWords2 (by decide) _ _ hm2

theorem extractTitle_ne_nil (jd : Str) : extractTitle jd ≠ [] := by
  unfold extractTitle titleFirstMatch
  cases h1 : searchPos titlePat1At jd with
  | some m =>
    obtain ⟨t, hmem⟩ := searchPos_mem _ _ _ h1
    exact normTitle_ne_nil _ (titlePat1At_has_nonws t m hmem)
  | none =>
    cases h2 : searchPos titlePat2At jd with
    | some m =>
      obtain ⟨t, hmem⟩ := searchPos_mem _ _ _ h2
      exact normTitle_ne_nil _ (titlePat2At_has_nonws t m hmem)
    | none =>
      cases h3 : searchLineStart (titleGroupM roleWords3) true jd with
      | some m =>
        obtain ⟨t, hmem⟩ := searchLineStart_mem _ _ _ _ h3
        simp only [Option.map_some']
        exact normTitle_ne_nil _ (group_has_nonws roleWords3 (by decide) _ _ hmem)
      | none =>
        simp only [Option.map_none']
        unfold titleFallback
        split_ifs <;> decide

/-- C10. Every extraction result has a non-empty title and an intake of at
least 1, so the truthiness-guarded merge always overwrites the form's
title and intake fields with the extracted values. -/
theorem extraction_title_intake_truthy (jd : Str) (f : FormState) :
    (analyzeJobDescription jd).title ≠ []
  ∧ 1 ≤ (analyzeJobDescription jd).intake
  ∧ (applyExtraction f (analyzeJobDescription jd)).title = (analyzeJobDescription jd).title
  ∧ (applyExtraction f (analyzeJobDescription jd)).intake
      = natToStr (analyzeJobDescription jd).intake := by
  have ht : (analyzeJobDescription jd).title = extractTitle jd := rfl
  have hi : (analyzeJobDescription jd).intake = min (extractIntakeRaw jd) 100 := rfl
  have h1 : (analyzeJobDescription jd).title ≠ [] := by
    rw [ht]; exact extractTitle_ne_nil jd
  have h2 : 1 ≤ (analyzeJobDescription jd).intake := by
    rw [hi]
    have := one_le_extractIntakeRaw jd
    omega
  refine ⟨h1, h2, ?_, ?_⟩
  · rw [apply_title, if_neg h1]
  · rw [apply_intake, if_neg (by omega)]

/-! ## Location normalization (C3) -/

theorem containsSub_infix_iff (hay nd : Str) : containsSub hay nd = true ↔ nd <:+: hay := by
  induction hay with
  | nil =>
    constructor
    · intro h
      unfold containsSub at h
      split at h
      · next hp => exact (List.isPrefixOf_iff_prefix.mp hp).isInfix
      · cases h
    · intro h
      have h0 : nd = [] := List.eq_nil_of_infix_nil h
      subst h0
      decide
  | cons c t ih =>
    constructor
    · intro h
      unfold containsSub at h
      split at h
      · next hp => exact (List.isPrefixOf_iff_prefix.mp hp).isInfix
      · exact List.infix_cons_iff.mpr (Or.inr (ih.mp h))
    · intro h
      unfold containsSub
      split
      · rfl
      · next hp =>
        rcases List.infix_cons_iff.mp h with hpre | hinf
        · exact absurd (List.isPrefixOf_iff_prefix.mpr hpre) hp
        · exact ih.mpr hinf

theorem take_all_sat (f : Char → Bool) :
    ∀ (s : Str) (k : Nat), k ≤ (s.takeWhile f).length → ∀ c ∈ s.take k, f c = true := by
  intro s
  induction s with
  | nil => intro k hk c hc; simp at hc
  | cons d t ih =>
    intro k hk c hc
    cases k with
    | zero => simp at hc
    | succ k2 =>
      by_cases hd : f d = true
      · rw [List.takeWhile_cons_of_pos hd] at hk
        simp only [List.length_cons, Nat.succ_le_succ_iff] at hk
        simp only [List.take_succ_cons] at hc
        rcases List.mem_cons.mp hc with rfl | hc2
        · exact hd
        · exact ih k2 hk c hc2
      · rw [List.takeWhile_cons_of_neg (by simpa using hd)] at hk
        simp at hk

theorem splitsDesc_mem (f : Char → Bool) (s : Str) (lo : Nat) (hi : Option Nat)
    (x : Str × Str) (hx : x ∈ splitsDesc f s lo hi) :
    s = x.1 ++ x.2 ∧ ∀ c ∈ x.1, f c = true := by
  rcases hi with _ | hb <;>
  · simp only [splitsDesc, List.mem_filterMap] at hx
    obtain ⟨i, _, hsome⟩ := hx
    split at hsome
    · next hlo =>
      have hx2 := Option.some.inj hsome
      subst hx2
      refine ⟨(List.take_append_drop _ s).symm, fun c hc => take_all_sat f s _ ?_ c hc⟩
      omega
    · cases hsome

theorem commaWs_chars (y : Char) (h : isCommaWs y = true) :
    y = ',' ∨ y = ' ' ∨ y = '\t' ∨ y = '\n' ∨ y = '\r' ∨ y = '\x0b' ∨ y = '\x0c' := by
  simp only [isCommaWs, isWsCh, Bool.or_eq_true, beq_iff_eq] at h
  tauto

theorem commaWs_toLower (y : Char) (h : isCommaWs y = true) : isCommaWs y.toLower = true := by
  rcases commaWs_chars y h with rfl | rfl | rfl | rfl | rfl | rfl | rfl <;> decide

theorem lowerAlpha_not_commaWs (c : Char) (hl : isLowerAlpha c = true) :
    isCommaWs c = false := by
  cases hw : isCommaWs c
  · rfl
  · exfalso
    rcases commaWs_chars c hw with rfl | rfl | rfl | rfl | rfl | rfl | rfl <;>
      revert hl <;> decide

/-- An all-letter needle occurring inside `a ++ b ++ d`, where `b` has only
comma/whitespace characters, lies inside `a`, inside `d`, or straddles the
`a`/`d` boundary with `b` empty in between. -/
theorem infix_split3 (t a b d : Str) (ht : t ≠ [])
    (htc : ∀ x ∈ t, isLowerAlpha x = true) (hb : ∀ x ∈ b, isCommaWs x = true)
    (hinf : t <:+: a ++ b ++ d) :
    t <:+: a ∨ t <:+: d ∨ ∃ t1 t2, t = t1 ++ t2 ∧ t1 <:+ a ∧ t2 <+: d := by
  obtain ⟨pre, post, heq⟩ := hinf
  rw [List.append_assoc a b d, List.append_assoc pre t post] at heq
  rcases List.append_eq_append_iff.mp heq with ⟨x, hax, hrest⟩ | ⟨y, hpre, hrest⟩
  · -- a = pre ++ x and t ++ post = x ++ (b ++ d): t starts inside a
    rcases List.append_eq_append_iff.mp hrest with ⟨w, hxw, hpostw⟩ | ⟨w, htw, hbd⟩
    · -- x = t ++ w: t lies inside a
      left
      exact List.IsInfix.trans (List.IsPrefix.isInfix ⟨w, hxw.symm⟩)
        (List.IsSuffix.isInfix ⟨pre, hax.symm⟩)
    · -- t = x ++ w and b ++ d = w ++ post
      cases w with
      | nil =>
        left
        rw [List.append_nil] at htw
        subst htw
        exact List.IsSuffix.isInfix ⟨pre, hax.symm⟩
      | cons wc w2 =>
        cases b with
        | nil =>
          -- empty separator: the needle straddles the a/d boundary
          right; right
          rw [List.nil_append] at hbd
          exact ⟨x, wc :: w2, htw, ⟨pre, hax.symm⟩, ⟨post, hbd.symm⟩⟩
        | cons bc b2 =>
          exfalso
          simp only [List.cons_append] at hbd
          have hwcbc : bc = wc := ((List.cons.injEq _ _ _ _).mp hbd).1
          have h1 : isLowerAlpha wc = true := by
            apply htc
            rw [htw]
            exact List.mem_append_right x (List.mem_cons_self _ _)
          have h2 : isCommaWs bc = true := hb bc (List.mem_cons_self _ _)
          rw [hwcbc] at h2
          rw [lowerAlpha_not_commaWs wc h1] at h2
          cases h2
  · -- pre = a ++ y and b ++ d = y ++ (t ++ post): t starts inside b ++ d
    rcases List.append_eq_append_iff.mp hrest with ⟨w, hyw, hdw⟩ | ⟨w, hbw, htw⟩
    · -- d = w ++ (t ++ post): t lies inside d
      right; left
      exact ⟨w, post, by rw [List.append_assoc]; exact hdw.symm⟩
    · -- b = y ++ w and t ++ post = w ++ d
      cases w with
      | nil =>
        right; left
        rw [List.nil_append] at htw
        exact ⟨[], post, by simpa using htw⟩
      | cons wc w2 =>
        exfalso
        cases t with
        | nil => exact ht rfl
        | cons tc t2 =>
          simp only [List.cons_append] at htw
          have htc1 : tc = wc := ((List.cons.injEq _ _ _ _).mp htw).1
          have h1 := htc tc (List.mem_cons_self _ _)
          have h2 : isCommaWs wc = true := by
            apply hb
            rw [hbw]
            exact List.mem_append_right y (List.mem_cons_self _ _)
          rw [← htc1] at h2
          rw [lowerAlpha_not_commaWs tc h1] at h2
          cases h2

theorem mLit_mem_full (lit : Str) (s : Str) (x : Str × Str) (hx : x ∈ mLit lit s) :
    toLowerS x.1 = lit ∧ s = x.1 ++ x.2 := by
  unfold mLit at hx
  split at hx
  · next hp =>
    rcases List.mem_singleton.mp hx with rfl
    exact ⟨hp, (List.take_append_drop _ s).symm⟩
  · cases hx

theorem mAlt_mapLit_mem_full (lits : List Str) (s : Str) (x : Str × Str)
    (hx : x ∈ mAlt (lits.map mLit) s) :
    (∃ lit ∈ lits, toLowerS x.1 = lit) ∧ s = x.1 ++ x.2 := by
  unfold mAlt at hx
  rw [List.mem_flatMap] at hx
  obtain ⟨p, hp, hxp⟩ := hx
  rw [List.mem_map] at hp
  obtain ⟨lit, hl, rfl⟩ := hp
  obtain ⟨h1, h2⟩ := mLit_mem_full lit s x hxp
  exact ⟨⟨lit, hl, h1⟩, h2⟩

/-- Shape of a city-pattern match: the whole span splits into the city
text, a comma/whitespace separator run, and an optional state text. -/
theorem locPat2At_shape (s : Str) (m : Str × Option Str × Str) (hm : m ∈ locPat2At s) :
    ∃ cty sep st, m.1 = cty ++ sep ++ st
      ∧ (∃ lit ∈ cityNames, toLowerS cty = lit)
      ∧ (∀ c ∈ sep, isCommaWs c = true)
      ∧ ((∃ lit ∈ stateNames, toLowerS st = lit) ∨ st = []) := by
  unfold locPat2At at hm
  rw [List.mem_flatMap] at hm
  obtain ⟨a, ha, hm2⟩ := hm
  rw [List.mem_flatMap] at hm2
  obtain ⟨b, hb, hm3⟩ := hm2
  rw [List.mem_map] at hm3
  obtain ⟨cl, hcl, rfl⟩ := hm3
  obtain ⟨⟨lit, hlit, hlow⟩, _⟩ := mAlt_mapLit_mem_full _ _ _ ha
  have hsep := (splitsDesc_mem isCommaWs a.2 0 none b (by simpa [mStarG] using hb)).2
  have hst : (∃ lit2 ∈ stateNames, toLowerS cl.1 = lit2) ∨ cl.1 = [] := by
    unfold mOpt at hcl
    rcases List.mem_append.mp hcl with h1 | h2
    · exact Or.inl (mAlt_mapLit_mem_full _ _ _ h1).1
    · rcases List.mem_singleton.mp h2 with rfl
      exact Or.inr rfl
  exact ⟨a.1, b.1, cl.1, rfl, ⟨lit, hlit, hlow⟩, hsep, hst⟩

/-- Decidable check for a straddling occurrence of `t` across the
boundary of `a ++ d`. -/
def straddleCheck (t a d : Str) : Bool :=
  (List.range (t.length + 1)).any (fun k =>
    (t.take k).reverse.isPrefixOf a.reverse && (t.drop k).isPrefixOf d)

theorem straddle_of_split (t a d t1 t2 : Str) (heq : t = t1 ++ t2)
    (h1 : t1 <:+ a) (h2 : t2 <+: d) : straddleCheck t a d = true := by
  unfold straddleCheck
  rw [List.any_eq_true]
  refine ⟨t1.length, ?_, ?_⟩
  · rw [List.mem_range]
    subst heq
    simp [List.length_append]
    omega
  · subst heq
    rw [List.take_left, List.drop_left, Bool.and_eq_true]
    constructor
    · exact List.isPrefixOf_iff_prefix.mpr (List.reverse_prefix.mpr h1)
    · exact List.isPrefixOf_iff_prefix.mpr h2

theorem cities_no_remote : ∀ lit ∈ cityNames, containsSub lit (str "remote") = false := by
  decide

theorem cities_no_wfh : ∀ lit ∈ cityNames, containsSub lit (str "wfh") = false := by decide

theorem states_no_remote : ∀ lit ∈ stateNames, containsSub lit (str "remote") = false := by
  decide

theorem states_no_wfh : ∀ lit ∈ stateNames, containsSub lit (str "wfh") = false := by decide

theorem no_straddle_remote :
    ∀ c ∈ cityNames, ∀ st ∈ stateNames, straddleCheck (str "remote") c st = false := by decide

theorem no_straddle_wfh :
    ∀ c ∈ cityNames, ∀ st ∈ stateNames, straddleCheck (str "wfh") c st = false := by decide

/-- No city-pattern match span contains the given lowercase needle (it
cannot occur in a city name, in a state name, across the boundary, or
touch the comma/whitespace separator). -/
theorem locPat2_no_needle (jd : Str) (m : Str × Option Str × Str)
    (hm : searchPos locPat2At jd = some m) (needle : Str)
    (hne : needle ≠ []) (hlowid : toLowerS needle = needle)
    (halpha : ∀ x ∈ needle, isLowerAlpha x = true)
    (hcity : ∀ lit ∈ cityNames, containsSub lit needle = false)
    (hstate : ∀ lit ∈ stateNames, containsSub lit needle = false)
    (hstrad : ∀ c ∈ cityNames, ∀ st ∈ stateNames, straddleCheck needle c st = false) :
    containsSub m.1 needle = false := by
  obtain ⟨t0, hmem⟩ := searchPos_mem _ _ _ hm
  obtain ⟨cty, sep, st, hw, ⟨litc, hlitc, hc⟩, hsep, hst⟩ := locPat2At_shape t0 m hmem
  cases hcs : containsSub m.1 needle
  · rfl
  · exfalso
    have hinf : needle <:+: m.1 := (containsSub_infix_iff _ _).mp hcs
    have hinf2 : needle <:+: toLowerS m.1 := by
      have hmap := List.IsInfix.map Char.toLower hinf
      rwa [show (needle.map Char.toLower) = toLowerS needle from rfl, hlowid] at hmap
    rw [hw, show toLowerS (cty ++ sep ++ st)
        = toLowerS cty ++ toLowerS sep ++ toLowerS st from by
      simp [toLowerS, List.map_append]] at hinf2
    have hsep2 : ∀ x ∈ toLowerS sep, isCommaWs x = true := by
      intro x hx
      rw [toLowerS, List.mem_map] at hx
      obtain ⟨y, hy, rfl⟩ := hx
      exact commaWs_toLower y (hsep y hy)
    rcases infix_split3 needle (toLowerS cty) (toLowerS sep) (toLowerS st) hne halpha hsep2
        hinf2 with h1 | h2 | ⟨t1, t2, hteq, hsuf, hpre⟩
    · rw [hc] at h1
      have hfalse := hcity litc hlitc
      rw [(containsSub_infix_iff _ _).mpr h1] at hfalse
      cases hfalse
    · rcases hst with ⟨lits, hlits, hstlow⟩ | hstnil
      · rw [hstlow] at h2
        have hfalse := hstate lits hlits
        rw [(containsSub_infix_iff _ _).mpr h2] at hfalse
        cases hfalse
      · rw [hstnil] at h2
        exact hne (List.eq_nil_of_infix_nil (by simpa [toLowerS] using h2))
    · rcases hst with ⟨lits, hlits, hstlow⟩ | hstnil
      · rw [hstlow] at hpre
        rw [hc] at hsuf
        have htrue := straddle_of_split needle litc lits t1 t2 hteq hsuf hpre
        rw [hstrad litc hlitc lits hlits] at htrue
        cases htrue
      · rw [hstnil] at hpre
        have ht2 : t2 = [] := List.prefix_nil.mp (by simpa [toLowerS] using hpre)
        subst ht2
        rw [List.append_nil] at hteq
        subst hteq
        rw [hc] at hsuf
        have hfalse := hcity litc hlitc
        rw [(containsSub_infix_iff _ _).mpr (List.IsSuffix.isInfix hsuf)] at hfalse
        cases hfalse

def wfhDoc : Str := str "WFH temporarily. Apply if eager to grow with a dynamic team and sharp peers. Strong growth mindset valued here."

def cityDoc : Str := str "We are in Bangalore, India. Team of ten."

set_option maxHeartbeats 2000000 in
/-- C3 (counterexample). In a document whose first location match is the
remote detector hitting the upper-case "WFH", the extracted location is
the empty string, not "Remote": the normalization test
`match[0].includes('remote') || match[0].includes('wfh')` is
case-sensitive on the original text. -/
theorem remote_casing_counterexample :
    searchPos locPat1At wfhDoc = none
  ∧ searchPos locPat2At wfhDoc = none
  ∧ searchPos locPat3At wfhDoc = some (str "WFH", none, List.drop 3 wfhDoc)
  ∧ extractLocation wfhDoc = []
  ∧ 100 ≤ wfhDoc.length := by decide

/-- C3 (amended). When the remote detector is the first location pattern
to match, the location is "Remote" exactly when the matched span contains
the lowercase literal "remote" or "wfh", and empty (unset) otherwise —
so differently-cased spans such as "WFH" yield an empty location; when a
city-style pattern matches first, the location is the matched city text
title-cased. -/
theorem location_normalization (jd : Str) :
    (∀ w rest, searchPos locPat1At jd = none → searchPos locPat2At jd = none →
      searchPos locPat3At jd = some (w, none, rest) →
      extractLocation jd =
        (if containsSub w (str "remote") || containsSub w (str "wfh")
         then str "Remote" else []))
  ∧ (∀ w g rest, searchPos locPat1At jd = none →
      searchPos locPat2At jd = some (w, some g, rest) →
      extractLocation jd = locTitleCase (trimWs g)) := by
  constructor
  · intro w rest h1 h2 h3
    unfold extractLocation locFirstMatch
    rw [h1, h2, h3]
    cases hc : containsSub w (str "remote") || containsSub w (str "wfh")
    · simp only [hc]
      decide
    · simp only [hc]
      decide
  · intro w g rest h1 h2
    unfold extractLocation locFirstMatch
    rw [h1, h2]
    have hr : containsSub w (str "remote") = false :=
      locPat2_no_needle jd (w, some g, rest) h2 (str "remote") (by decide) (by decide)
        (by decide) cities_no_remote states_no_remote no_straddle_remote
    have hwf : containsSub w (str "wfh") = false :=
      locPat2_no_needle jd (w, some g, rest) h2 (str "wfh") (by decide) (by decide)
        (by decide) cities_no_wfh states_no_wfh no_straddle_wfh
    simp only [hr, hwf]
    rfl

set_option maxHeartbeats 2000000 in
/-- C3 (witness). A document whose first location match is the city
pattern on "Bangalore, India" extracts the title-cased city text. -/
theorem location_normalization_witness :
    extractLocation cityDoc = locTitleCase (trimWs (str "Bangalore"))
  ∧ locTitleCase (trimWs (str "Bangalore")) = str "Bangalore" :=
  ⟨(location_normalization cityDoc).2 (str "Bangalore, India") (str "Bangalore")
      (str ". Team of ten.") (by decide) (by decide), by decide⟩
